import Mathlib

/-!
Verification of the srv-rs service-discovery client engine: the time-bounded
record cache, the Affinity and Rfc2782 target-selection policies, the
RFC 2782 sort key, and the execute/first-success orchestration, shallowly
embedded from the Rust sources (`src/client/cache.rs`, `src/client/policy.rs`,
`src/client/mod.rs`, `src/record.rs`).  Machine integers are modelled as `Nat`
with explicit reductions modulo `2 ^ 16` / `2 ^ 32` where the code widens or
multiplies; instants and durations are modelled as `Nat`; addresses (`Uri`)
are modelled as strings; the resolver and the URI-assembly collaborator are
out of scope for the library and enter as parameters.
-/

namespace SrvRs

/-- Addresses are abstract in the client engine; we model `http::Uri` as a
plain string. -/
abbrev Uri := String

/-- Fields of a SRV record (trait `SrvRecord` in `src/record.rs` together with
the resolver-provided record types): target host, port, priority, weight and
time-to-live.  `port`, `priority` and `weight` are 16-bit in the source; we
carry them as `Nat` and add explicit bounds where a theorem needs them. -/
structure SrvRecord where
  target : String
  port : Nat
  priority : Nat
  weight : Nat
  ttl : Nat
deriving DecidableEq

/-! ## Cache (`src/client/cache.rs`) -/

/-- `Cache<T> { valid_until: Instant, items: Box<[T]> }`, instants as `Nat`. -/
structure Cache (T : Type) where
  valid_until : Nat
  items : List T
deriving DecidableEq

/-- `Cache::new(items, valid_until)`. -/
def Cache.new (items : List T) (valid_until : Nat) : Cache T :=
  { valid_until := valid_until, items := items }

/-- `Cache::valid`: `!self.items.is_empty() && Instant::now() <= self.valid_until`,
with the ambient `Instant::now()` passed explicitly as `now`. -/
def Cache.valid (now : Nat) (c : Cache T) : Bool :=
  !c.items.isEmpty && now ≤ c.valid_until

/-! ## `ExecuteResults::first_success` (`src/client/mod.rs`) -/

/-- The `NoSRVTargets` error value. -/
inductive NoSRVTargets where
  | noSRVTargets
deriving DecidableEq

/-- Loop body of `first_success`: walk the materialized result stream keeping
the last error seen (`last_error`), returning at the first `Ok`. -/
def firstSuccessGo : List (Except E T) → Option E → Except NoSRVTargets (Except E T)
  | [], none => .error .noSRVTargets
  | [], some e => .ok (.error e)
  | .ok r :: _, _ => .ok (.ok r)
  | .error e :: rest, _ => firstSuccessGo rest (some e)

/-- `ExecuteResults::first_success` over the materialized stream of results:
first `Ok`, else last `Err`, else `NoSRVTargets`. -/
def firstSuccess (results : List (Except E T)) : Except NoSRVTargets (Except E T) :=
  firstSuccessGo results none

/-- Projection used to phrase "the first `Ok` result" of a stream. -/
def okResult : Except E T → Option T
  | .ok t => some t
  | .error _ => none

/- Auxiliary lemmas about the `first_success` loop. -/

theorem firstSuccessGo_first_ok (l : List (Except E T)) :
    ∀ acc t, l.findSome? okResult = some t → firstSuccessGo l acc = .ok (.ok t) := by
  induction l with
  | nil => intro acc t h; simp [List.findSome?] at h
  | cons x rest ih =>
    intro acc t h
    cases x with
    | ok r =>
      simp [List.findSome?, okResult] at h
      simp [firstSuccessGo, h]
    | error e =>
      simp [List.findSome?, okResult] at h
      simpa [firstSuccessGo] using ih (some e) t h

theorem firstSuccessGo_all_err (l : List (Except E T)) :
    ∀ acc x, l.findSome? okResult = none → l.getLast? = some x →
      firstSuccessGo l acc = .ok x := by
  induction l with
  | nil => intro acc x _ hl; simp at hl
  | cons y rest ih =>
    intro acc x hnone hl
    cases y with
    | ok r => simp [List.findSome?, okResult] at hnone
    | error e =>
      rw [List.findSome?_cons] at hnone
      simp only [okResult] at hnone
      cases rest with
      | nil =>
        simp at hl
        simp [firstSuccessGo, ← hl]
      | cons z zs =>
        have hl' : (z :: zs).getLast? = some x := by
          simpa [List.getLast?_cons_cons] using hl
        simpa [firstSuccessGo] using ih (some e) x hnone hl'

theorem firstSuccessGo_some_ne_error (l : List (Except E T)) :
    ∀ e, firstSuccessGo l (some e) ≠ .error .noSRVTargets := by
  induction l with
  | nil => intro e h; simp [firstSuccessGo] at h
  | cons x rest ih =>
    intro e h
    cases x with
    | ok r => simp [firstSuccessGo] at h
    | error e' => exact ih e' (by simpa [firstSuccessGo] using h)

/-- Claim C1: `first_success` returns the first `Ok` result if any attempt
succeeds; otherwise, if at least one attempt was made, it returns the last
observed result (necessarily an `Err`); and it returns `NoSRVTargets` exactly
when the stream produced no results at all. -/
theorem firstSuccess_spec (l : List (Except E T)) :
    (∀ t, l.findSome? okResult = some t → firstSuccess l = .ok (.ok t)) ∧
    (∀ x, l.findSome? okResult = none → l.getLast? = some x →
      firstSuccess l = .ok x ∧ ∃ e, x = .error e) ∧
    (firstSuccess l = .error .noSRVTargets ↔ l = []) := by
  refine ⟨fun t h => firstSuccessGo_first_ok l none t h, ?_, ?_⟩
  · intro x hnone hl
    refine ⟨firstSuccessGo_all_err l none x hnone hl, ?_⟩
    cases x with
    | ok t =>
      exfalso
      have hmem : Except.ok t ∈ l := List.mem_of_mem_getLast? (by simp [hl])
      have : l.findSome? okResult ≠ none := by
        intro hn
        have := List.findSome?_eq_none_iff.mp hn _ hmem
        simp [okResult] at this
      exact this hnone
    | error e => exact ⟨e, rfl⟩
  · constructor
    · intro h
      cases l with
      | nil => rfl
      | cons x rest =>
        exfalso
        cases x with
        | ok r => simp [firstSuccess, firstSuccessGo] at h
        | error e =>
          exact firstSuccessGo_some_ne_error rest e
            (by simpa [firstSuccess, firstSuccessGo] using h)
    · intro h; subst h; rfl

/-- Witness for C1 at concrete inputs: a stream with a success, an all-error
stream, and the empty stream. -/
theorem firstSuccess_spec_witness :
    firstSuccess ([Except.error "a", Except.ok 3, Except.error "b"] :
        List (Except String Nat)) = .ok (.ok 3) ∧
    (firstSuccess ([Except.error "a", Except.error "b"] :
        List (Except String Nat)) = .ok (.error "b") ∧
      ∃ e, (Except.error "b" : Except String Nat) = .error e) ∧
    firstSuccess ([] : List (Except String Nat)) = .error .noSRVTargets :=
  ⟨(firstSuccess_spec ([Except.error "a", Except.ok 3, Except.error "b"] :
      List (Except String Nat))).1 3 rfl,
   (firstSuccess_spec ([Except.error "a", Except.error "b"] :
      List (Except String Nat))).2.1 (.error "b") rfl rfl,
   (firstSuccess_spec ([] : List (Except String Nat))).2.2.mpr rfl⟩

/-- Claim C2: `valid()` is true iff the item list is non-empty and the current
instant is at most the expiration instant; a cache observed exactly at its
expiration instant is still valid. -/
theorem cache_valid_spec (now : Nat) (c : Cache T) :
    (Cache.valid now c = true ↔ c.items ≠ [] ∧ now ≤ c.valid_until) ∧
    (c.items ≠ [] → Cache.valid c.valid_until c = true) := by
  constructor
  · simp [Cache.valid, List.isEmpty_iff]
  · intro h
    simp [Cache.valid, List.isEmpty_iff, h]

/-- Witness for C2: a one-item cache observed exactly at its expiration
instant is valid. -/
theorem cache_valid_spec_witness :
    Cache.valid 5 (Cache.new [0] 5) = true :=
  (cache_valid_spec 5 (Cache.new [0] 5)).2 (by decide)

/-! ## Affinity ordering (`src/client/policy.rs`) -/

/-- The preferred index computed by `Affinity::uris_preferring`:
`preferred.and_then(|preferred| cached.iter().position(|uri| uri == preferred)).unwrap_or(0)`. -/
def affinityPreferredIdx [DecidableEq α] (cached : List α) (preferred : Option α) : Nat :=
  (preferred.bind fun u => cached.findIdx? fun x => decide (x = u)).getD 0

/-- One step of `AffinityUriIter::next`, mapping the `next` field to the pair
(index to produce, new value of `next`):
`None => (preferred, 0)`; `Some(next) if next == preferred => (next+1, next+2)`;
`Some(next) => (next, next+1)`. -/
def affinityStep (preferred : Nat) : Option Nat → Nat × Nat
  | none => (preferred, 0)
  | some k => if k = preferred then (k + 1, k + 2) else (k, k + 1)

/-- The index sequence an `AffinityUriIter` over `n` items yields to a consumer
that stops at the first `None` (`self.uris.get(idx)` out of bounds).  The
iterator itself is unbounded, so we run it with fuel; any fuel above the item
count is enough. -/
def affinityEmit (n preferred : Nat) : Option Nat → Nat → List Nat
  | _, 0 => []
  | st, fuel + 1 =>
    let s := affinityStep preferred st
    if s.1 < n then s.1 :: affinityEmit n preferred (some s.2) fuel else []

/-- The full index order produced by `Affinity::uris_preferring(cached, preferred)`
(the iterator starts with `next = None`). -/
def affinityOrder [DecidableEq α] (cached : List α) (preferred : Option α) : List Nat :=
  affinityEmit cached.length (affinityPreferredIdx cached preferred) none
    (cached.length + 2)

theorem affinityEmit_some (n p : Nat) (hp : p < n) :
    ∀ fuel k, n - k < fuel →
      affinityEmit n p (some k) fuel =
        (List.range' k (n - k)).filter fun i => decide (i ≠ p) := by
  intro fuel
  induction fuel with
  | zero => intro k h; omega
  | succ fuel ih =>
    intro k hk
    by_cases hkp : k = p
    · subst hkp
      by_cases h1 : k + 1 < n
      · have hrw : n - k = (n - k - 2) + 1 + 1 := by omega
        rw [hrw, List.range'_succ, List.range'_succ]
        have ihk : affinityEmit n k (some (k + 2)) fuel =
            (List.range' (k + 2) (n - (k + 2))).filter fun i => decide (i ≠ k) :=
          ih (k + 2) (by omega)
        have hnk : n - (k + 2) = n - k - 2 := by omega
        simp [affinityEmit, affinityStep, h1, ihk, hnk, Nat.ne_of_gt]
      · have hn : n = k + 1 := by omega
        have hrw : n - k = 1 := by omega
        rw [hrw, List.range'_one]
        simp [affinityEmit, affinityStep, h1]
    · by_cases h1 : k < n
      · have hrw : n - k = (n - k - 1) + 1 := by omega
        rw [hrw, List.range'_succ]
        have ihk : affinityEmit n p (some (k + 1)) fuel =
            (List.range' (k + 1) (n - (k + 1))).filter fun i => decide (i ≠ p) :=
          ih (k + 1) (by omega)
        have hnk : n - (k + 1) = n - k - 1 := by omega
        simp [affinityEmit, affinityStep, hkp, h1, ihk, hnk]
      · have hrw : n - k = 0 := by omega
        rw [hrw, List.range'_zero]
        simp [affinityEmit, affinityStep, hkp, h1]

theorem affinityPreferredIdx_lt [DecidableEq α] (cached : List α) (preferred : Option α)
    (h : cached ≠ []) : affinityPreferredIdx cached preferred < cached.length := by
  have hlen : 0 < cached.length := List.length_pos.mpr h
  cases preferred with
  | none => simpa [affinityPreferredIdx] using hlen
  | some u =>
    cases hfi : cached.findIdx? fun x => decide (x = u) with
    | none => simpa [affinityPreferredIdx, hfi] using hlen
    | some i =>
      have := (List.findIdx?_eq_some_iff_findIdx_eq.mp hfi).1
      simpa [affinityPreferredIdx, hfi] using this

/-- Claim C3: for a non-empty item list of length `n`, the Affinity ordering
emits the preferred index `p` first (`p` being the position of the remembered
address in the list, `0` when nothing is remembered or the address is absent),
then `0, 1, ..., n-1` in order skipping `p`; each index is emitted exactly
once (the order is a permutation of `range n`). -/
theorem affinity_order_spec [DecidableEq α] (cached : List α) (preferred : Option α)
    (h : cached ≠ []) :
    affinityOrder cached preferred =
      affinityPreferredIdx cached preferred ::
        ((List.range cached.length).filter
          fun i => decide (i ≠ affinityPreferredIdx cached preferred)) ∧
    (affinityOrder cached preferred).Perm (List.range cached.length) ∧
    (preferred = none → affinityPreferredIdx cached preferred = 0) ∧
    (∀ u, preferred = some u → u ∉ cached → affinityPreferredIdx cached preferred = 0) ∧
    (∀ u p, preferred = some u → (cached.findIdx? fun x => decide (x = u)) = some p →
      affinityPreferredIdx cached preferred = p) := by
  have hp : affinityPreferredIdx cached preferred < cached.length :=
    affinityPreferredIdx_lt cached preferred h
  have hfirst : affinityOrder cached preferred =
      affinityPreferredIdx cached preferred ::
        ((List.range cached.length).filter
          fun i => decide (i ≠ affinityPreferredIdx cached preferred)) := by
    have h0 : affinityEmit cached.length (affinityPreferredIdx cached preferred)
        (some 0) (cached.length + 1) =
        (List.range' 0 (cached.length - 0)).filter
          fun i => decide (i ≠ affinityPreferredIdx cached preferred) :=
      affinityEmit_some cached.length (affinityPreferredIdx cached preferred) hp
        (cached.length + 1) 0 (by omega)
    have hstep : affinityOrder cached preferred =
        if affinityPreferredIdx cached preferred < cached.length then
          affinityPreferredIdx cached preferred ::
            affinityEmit cached.length (affinityPreferredIdx cached preferred)
              (some 0) (cached.length + 1)
        else [] := rfl
    rw [hstep, if_pos hp, h0]
    simp [List.range_eq_range']
  refine ⟨hfirst, ?_, ?_, ?_, ?_⟩
  · rw [hfirst]
    have hmem : affinityPreferredIdx cached preferred ∈ List.range cached.length :=
      List.mem_range.mpr hp
    have hfe : ((List.range cached.length).filter
          fun i => decide (i ≠ affinityPreferredIdx cached preferred)) =
        (List.range cached.length).erase (affinityPreferredIdx cached preferred) := by
      rw [(List.nodup_range cached.length).erase_eq_filter
        (affinityPreferredIdx cached preferred)]
      apply List.filter_congr
      intro x _
      by_cases hxp : x = affinityPreferredIdx cached preferred <;> simp [hxp]
    rw [hfe]
    exact (List.perm_cons_erase hmem).symm
  · intro hpe; simp [affinityPreferredIdx, hpe]
  · intro u hpe hu
    have hfi : (cached.findIdx? fun x => decide (x = u)) = none := by
      rw [List.findIdx?_eq_none_iff]
      intro x hx
      by_cases hxu : x = u
      · exact absurd (hxu ▸ hx) hu
      · simp [hxu]
    simp [affinityPreferredIdx, hpe, hfi]
  · intro u q hpe hfi
    simp [affinityPreferredIdx, hpe, hfi]

/-- Witness for C3 at the concrete item list `["a","b","c"]` with remembered
address `"b"`. -/
theorem affinity_order_spec_witness :
    affinityOrder ["a", "b", "c"] (some "b") =
      affinityPreferredIdx ["a", "b", "c"] (some "b") ::
        ((List.range (["a", "b", "c"] : List String).length).filter
          fun i => decide (i ≠ affinityPreferredIdx ["a", "b", "c"] (some "b"))) ∧
    (affinityOrder ["a", "b", "c"] (some "b")).Perm
      (List.range (["a", "b", "c"] : List String).length) ∧
    ((some "b" : Option String) = none →
      affinityPreferredIdx ["a", "b", "c"] (some "b") = 0) ∧
    (∀ u, (some "b" : Option String) = some u → u ∉ ["a", "b", "c"] →
      affinityPreferredIdx ["a", "b", "c"] (some "b") = 0) ∧
    (∀ u p, (some "b" : Option String) = some u →
      ((["a", "b", "c"] : List String).findIdx? fun x => decide (x = u)) = some p →
      affinityPreferredIdx ["a", "b", "c"] (some "b") = p) :=
  affinity_order_spec ["a", "b", "c"] (some "b") (by decide)

/-! ## RFC 2782 sort key (`src/record.rs`) and Rfc2782 ordering
(`src/client/policy.rs`) -/

/-- `sort_key(priority, weight, rng)` from `src/record.rs`:
`let rand = rng.gen::<u16>() as u32; (priority, Reverse(weight as u32 * rand))`.
The draw is 16-bit (`rand % 2 ^ 16`), the multiplication is 32-bit
(`% 2 ^ 32`).  The `Reverse` wrapper on the second component is represented by
the comparison `keyLE` below. -/
def sort_key (priority weight rand : Nat) : Nat × Nat :=
  (priority, weight * (rand % 2 ^ 16) % 2 ^ 32)

/-- The derived `Ord` on `(u16, Reverse<u32>)`: ascending in the first
component, descending in the second. -/
def keyLE (a b : Nat × Nat) : Bool :=
  decide (a.1 < b.1) || (decide (a.1 = b.1) && decide (b.2 ≤ a.2))

/-- The per-item key computation performed by `sort_by_cached_key` inside
`Rfc2782::uris`: keys are computed once per item, in item order, each call to
`sort_key` consuming one draw (`rng.gen::<u16>()`) from the generator.  The
generator is modelled as the list of its upcoming draws; the function returns
the computed keys together with the not-yet-consumed remainder of the
generator. -/
def drawKeys : List (Nat × Nat) → List Nat → List (Nat × Nat) × List Nat
  | [], rng => ([], rng)
  | (p, w) :: rest, rng =>
    let key := sort_key p w (rng.headD 0)
    let r := drawKeys rest rng.tail
    (key :: r.1, r.2)

/-- `Rfc2782::uris`: collect the indices `0..cached.len()`, and stable-sort
them by the cached `sort_key` of the corresponding item (priority and weight);
`cached` carries each item's `(priority, weight)`. -/
def rfc2782Order (cached : List (Nat × Nat)) (rng : List Nat) : List Nat :=
  let keys := (drawKeys cached rng).1
  (List.range cached.length).mergeSort fun i j =>
    keyLE (keys.getD i (0, 0)) (keys.getD j (0, 0))

theorem keyLE_trans (a b c : Nat × Nat) (hab : keyLE a b) (hbc : keyLE b c) :
    keyLE a c := by
  simp only [keyLE, Bool.or_eq_true, Bool.and_eq_true, decide_eq_true_eq] at *
  omega

theorem keyLE_total (a b : Nat × Nat) : keyLE a b || keyLE b a := by
  simp only [keyLE, Bool.or_eq_true, Bool.and_eq_true, decide_eq_true_eq]
  omega

theorem keyLE_fst_le (a b : Nat × Nat) (h : keyLE a b) : a.1 ≤ b.1 := by
  simp only [keyLE, Bool.or_eq_true, Bool.and_eq_true, decide_eq_true_eq] at h
  omega

theorem drawKeys_snd (cached : List (Nat × Nat)) (rng : List Nat) :
    (drawKeys cached rng).2 = rng.drop cached.length := by
  induction cached generalizing rng with
  | nil => simp [drawKeys]
  | cons pw rest ih =>
    obtain ⟨p, w⟩ := pw
    cases rng with
    | nil => simpa [drawKeys] using ih []
    | cons a as => simpa [drawKeys] using ih as

theorem drawKeys_length (cached : List (Nat × Nat)) (rng : List Nat) :
    (drawKeys cached rng).1.length = cached.length := by
  induction cached generalizing rng with
  | nil => simp [drawKeys]
  | cons pw rest ih =>
    obtain ⟨p, w⟩ := pw
    simpa [drawKeys] using ih rng.tail

theorem drawKeys_getD (cached : List (Nat × Nat)) (rng : List Nat) :
    ∀ i, i < cached.length →
      (drawKeys cached rng).1.getD i (0, 0) =
        sort_key (cached.getD i (0, 0)).1 (cached.getD i (0, 0)).2 (rng.getD i 0) := by
  induction cached generalizing rng with
  | nil => intro i hi; simp at hi
  | cons pw rest ih =>
    obtain ⟨p, w⟩ := pw
    intro i hi
    cases i with
    | zero =>
      cases rng with
      | nil => simp [drawKeys]
      | cons a as => simp [drawKeys]
    | succ i =>
      have hi' : i < rest.length := by simpa using hi
      cases rng with
      | nil => simpa [drawKeys] using ih [] i hi'
      | cons a as => simpa [drawKeys] using ih as i hi'

/-- Claim C6 (amended): within one `Rfc2782` ordering call, a fresh 16-bit
draw is made for every item — the `i`-th item's tie-break key is its weight
multiplied by the `i`-th draw — and the call consumes exactly one draw per
item, so the next ordering call starts on the remainder of the draw stream. -/
theorem rfc2782_draw_per_item (cached : List (Nat × Nat)) (rng : List Nat) :
    (drawKeys cached rng).2 = rng.drop cached.length ∧
    (drawKeys cached rng).1.length = cached.length ∧
    ∀ i, i < cached.length →
      (drawKeys cached rng).1.getD i (0, 0) =
        sort_key (cached.getD i (0, 0)).1 (cached.getD i (0, 0)).2 (rng.getD i 0) :=
  ⟨drawKeys_snd cached rng, drawKeys_length cached rng, drawKeys_getD cached rng⟩

/-- Witness for C6 (amended) at a concrete item list and draw stream. -/
theorem rfc2782_draw_per_item_witness :
    (drawKeys [(2, 3)] [7, 9]).2 = [7, 9].drop 1 ∧
    (drawKeys [(2, 3)] [7, 9]).1.length = 1 ∧
    (drawKeys [(2, 3)] [7, 9]).1.getD 0 (0, 0) =
      sort_key ([(2, 3)].getD 0 (0, 0)).1 ([(2, 3)].getD 0 (0, 0)).2
        ([7, 9].getD 0 0) :=
  ⟨(rfc2782_draw_per_item [(2, 3)] [7, 9]).1,
   (rfc2782_draw_per_item [(2, 3)] [7, 9]).2.1,
   (rfc2782_draw_per_item [(2, 3)] [7, 9]).2.2 0 (by decide)⟩

/-- Counterexample to C6 as stated: with items `[(0,1), (0,1)]` (equal
priority, equal weight `1`) and draw stream `[0, 1]`, the two items' tie-break
keys are `0` and `1`, so there is no single draw `r` with every key equal to
`weight * r`; the code draws per item, not once per ordering call. -/
theorem rfc2782_single_draw_counterexample :
    ¬ ∃ r : Nat,
      ((drawKeys [(0, 1), (0, 1)] [0, 1]).1.getD 0 (0, 0)).2 = 1 * r ∧
      ((drawKeys [(0, 1), (0, 1)] [0, 1]).1.getD 1 (0, 0)).2 = 1 * r := by
  rintro ⟨r, h0, h1⟩
  have e0 : ((drawKeys [(0, 1), (0, 1)] [0, 1]).1.getD 0 (0, 0)).2 = 0 := rfl
  have e1 : ((drawKeys [(0, 1), (0, 1)] [0, 1]).1.getD 1 (0, 0)).2 = 1 := rfl
  rw [e0] at h0
  rw [e1] at h1
  omega

/-- Claim C4: in every ordering produced by the Rfc2782 policy, adjacent
emitted items have non-decreasing priorities. -/
theorem rfc2782_priority_sorted (cached : List (Nat × Nat)) (rng : List Nat) :
    List.Chain' (fun i j => (cached.getD i (0, 0)).1 ≤ (cached.getD j (0, 0)).1)
      (rfc2782Order cached rng) := by
  have hkey : ∀ i, i < cached.length →
      ((drawKeys cached rng).1.getD i (0, 0)).1 = (cached.getD i (0, 0)).1 := by
    intro i hi
    rw [drawKeys_getD cached rng i hi]
    rfl
  have hsorted : (rfc2782Order cached rng).Pairwise
      (fun i j => keyLE ((drawKeys cached rng).1.getD i (0, 0))
        ((drawKeys cached rng).1.getD j (0, 0))) :=
    @List.sorted_mergeSort Nat
      (fun i j => keyLE ((drawKeys cached rng).1.getD i (0, 0))
        ((drawKeys cached rng).1.getD j (0, 0)))
      (fun a b c hab hbc => keyLE_trans _ _ _ hab hbc)
      (fun a b => keyLE_total _ _)
      (List.range cached.length)
  have hpair : (rfc2782Order cached rng).Pairwise
      (fun i j => (cached.getD i (0, 0)).1 ≤ (cached.getD j (0, 0)).1) := by
    refine hsorted.imp_of_mem ?_
    intro a b ha hb hab
    have ha' : a < cached.length := by
      have : a ∈ List.range cached.length := by
        simpa [rfc2782Order] using ha
      simpa using this
    have hb' : b < cached.length := by
      have : b ∈ List.range cached.length := by
        simpa [rfc2782Order] using hb
      simpa using this
    have := keyLE_fst_le _ _ hab
    rw [hkey a ha', hkey b hb'] at this
    exact this
  exact hpair.chain'

/-- Claim C10: for 16-bit `priority`, `weight` and a 16-bit draw, the
`weight as u32 * rand` computation of `sort_key` is exact in 32-bit unsigned
arithmetic — the product is below `2 ^ 32`, so the reduction modulo `2 ^ 32`
changes nothing. -/
theorem sort_key_no_overflow (p w r : Nat) (hw : w < 2 ^ 16) :
    (sort_key p w r).2 = w * (r % 2 ^ 16) ∧ w * (r % 2 ^ 16) < 2 ^ 32 := by
  have h1 : r % 2 ^ 16 < 2 ^ 16 := Nat.mod_lt _ (by norm_num)
  have h2 : w * (r % 2 ^ 16) < 2 ^ 32 := by
    have := Nat.mul_lt_mul_of_lt_of_lt hw h1
    calc w * (r % 2 ^ 16) < 2 ^ 16 * 2 ^ 16 := this
      _ = 2 ^ 32 := by norm_num
  refine ⟨?_, h2⟩
  show w * (r % 2 ^ 16) % 2 ^ 32 = w * (r % 2 ^ 16)
  exact Nat.mod_eq_of_lt h2

/-- Witness for C10 at the extreme 16-bit weight and an arbitrary draw. -/
theorem sort_key_no_overflow_witness :
    (sort_key 1 65535 99999).2 = 65535 * (99999 % 2 ^ 16) ∧
      65535 * (99999 % 2 ^ 16) < 2 ^ 32 :=
  sort_key_no_overflow 1 65535 99999 (by norm_num)

/-! ## Client configuration surface (`src/client/mod.rs`) -/

/-- `SrvClient<Resolver, Policy>` with its configuration and cache slot.  The
resolver and policy values are abstract (`R`, `P`); `C` is the policy's
`CacheItem` type.  The `ArcSwap` cache slot is modelled by the cache value it
holds. -/
structure SrvClient (R P C : Type) where
  srv : String
  resolver : R
  http_scheme : String
  path_prefix : String
  policy : P
  cache : Cache C

/-- `SrvClient::srv_name`: `Self { srv: srv_name.to_string(), ..self }` —
every other field, the cache slot included, is carried over. -/
def SrvClient.srv_name (c : SrvClient R P C) (s : String) : SrvClient R P C :=
  { c with srv := s }

/-- `SrvClient::resolver`: rebuilds the client with the new resolver and
`cache: Default::default()` — an empty cache expiring at the construction
instant `now` (`Cache::default()` is `Cache::new(Vec::new(), Instant::now())`). -/
def SrvClient.set_resolver (now : Nat) (c : SrvClient R P C) (r : R2) :
    SrvClient R2 P C :=
  { resolver := r, cache := Cache.new [] now, policy := c.policy, srv := c.srv,
    http_scheme := c.http_scheme, path_prefix := c.path_prefix }

/-- `SrvClient::policy`: rebuilds the client with the new policy and
`cache: Default::default()`; the policy change also changes the cache item
type (`C` to `C2`). -/
def SrvClient.set_policy (now : Nat) (c : SrvClient R P C) (p : P2) :
    SrvClient R P2 C2 :=
  { policy := p, cache := Cache.new [] now, resolver := c.resolver, srv := c.srv,
    http_scheme := c.http_scheme, path_prefix := c.path_prefix }

/-- `SrvClient::http_scheme`: `Self { http_scheme, ..self }` — the cache slot
is carried over. -/
def SrvClient.set_http_scheme (c : SrvClient R P C) (s : String) : SrvClient R P C :=
  { c with http_scheme := s }

/-- `SrvClient::path_prefix`: `Self { path_prefix: path_prefix.to_string(), ..self }`
— the cache slot is carried over. -/
def SrvClient.set_path_pre (c : SrvClient R P C) (s : String) : SrvClient R P C :=
  { c with path_prefix := s }

/-- A concrete client with a non-empty, unexpired cache slot. -/
def exampleClient : SrvClient Unit Unit Nat :=
  { srv := "a", resolver := (), http_scheme := "https", path_prefix := "/",
    policy := (), cache := Cache.new [7] 100 }

/-- Counterexample to C5 as stated: `srv_name` does not reset the cache slot —
on a client whose cache holds one item, the client returned by `srv_name`
still holds that item, so its cache is not the default empty cache. -/
theorem builder_reset_counterexample :
    (SrvClient.srv_name exampleClient "b").cache = Cache.new [7] 100 ∧
    ¬ (SrvClient.srv_name exampleClient "b").cache.items = [] := by
  exact ⟨rfl, by decide⟩

/-- Claim C5 (amended): the resolver and policy builder calls reset the cache
slot to the default (empty, created expiring at the construction instant, and
invalid at every instant), while `srv_name`, `http_scheme` and `path_prefix`
carry the cache slot over unchanged. -/
theorem builder_cache_spec (c : SrvClient R P C) (s : String) (r : R2) (p : P2)
    (now : Nat) :
    (SrvClient.srv_name c s).cache = c.cache ∧
    (SrvClient.set_http_scheme c s).cache = c.cache ∧
    (SrvClient.set_path_pre c s).cache = c.cache ∧
    (SrvClient.set_resolver now c r).cache = Cache.new [] now ∧
    (SrvClient.set_policy now c p : SrvClient R P2 C2).cache = Cache.new [] now ∧
    (∀ t, Cache.valid t (Cache.new ([] : List C2) now) = false) := by
  refine ⟨rfl, rfl, rfl, rfl, rfl, ?_⟩
  intro t
  simp [Cache.valid, Cache.new]

/-! ## Cache refresh and execute (`src/client/mod.rs`, `src/client/policy.rs`) -/

/-- `SrvError<Lookup>`: lookup errors, record-parsing errors (the `http::Error`
type is abstract, `H`), and the no-targets condition. -/
inductive SrvError (L H : Type) where
  | lookup (e : L)
  | recordParsing (e : H)
  | noTargets
deriving DecidableEq

/-- `SrvClient::get_fresh_uri_candidates`: take the resolver response
(`lookup`, the awaited result of `get_srv_records`), compute the minimum TTL
over the returned records (`unwrap_or_default()` gives `0` on an empty
response), and parse every record into a URI, failing wholesale at the first
parse error.  URI assembly is the out-of-scope collaborator, passed in as
`parse`. -/
def getFreshUriCandidates (lookup : Except L (List SrvRecord))
    (parse : SrvRecord → Except H Uri) : Except (SrvError L H) (List Uri × Nat) :=
  match lookup with
  | .error e => .error (.lookup e)
  | .ok records =>
    let min_ttl := ((records.map fun r => r.ttl).min?).getD 0
    match records.mapM parse with
    | .error e => .error (.recordParsing e)
    | .ok uris => .ok (uris, min_ttl)

/-- `Affinity::refresh_cache`: `Cache::new(uris, min_ttl)` over the result of
`get_fresh_uri_candidates`. -/
def refreshCacheAffinity (lookup : Except L (List SrvRecord))
    (parse : SrvRecord → Except H Uri) : Except (SrvError L H) (Cache Uri) :=
  match getFreshUriCandidates lookup parse with
  | .error e => .error e
  | .ok (uris, min_ttl) => .ok (Cache.new uris min_ttl)

/-- `ParsedRecord`: the `Rfc2782` cache item — the parsed URI together with
the record's priority and weight. -/
structure ParsedRecord where
  uri : Uri
  priority : Nat
  weight : Nat
deriving DecidableEq

/-- `ParsedRecord::new`. -/
def ParsedRecord.new (record : SrvRecord) (uri : Uri) : ParsedRecord :=
  { uri := uri, priority := record.priority, weight := record.weight }

/-- `Rfc2782::refresh_cache`: parse every record into a `ParsedRecord`
(failing wholesale at the first parse error), compute the minimum TTL, and
build the cache. -/
def refreshCacheRfc2782 (lookup : Except L (List SrvRecord))
    (parse : SrvRecord → Except H Uri) :
    Except (SrvError L H) (Cache ParsedRecord) :=
  match lookup with
  | .error e => .error (.lookup e)
  | .ok records =>
    match records.mapM fun r => (parse r).map (ParsedRecord.new r) with
    | .error e => .error (.recordParsing e)
    | .ok parsed =>
      let min_ttl := (records.map fun r => r.ttl).min?
      .ok (Cache.new parsed (min_ttl.getD 0))

theorem minTtl_spec (records : List SrvRecord) (hne : records ≠ []) :
    ((records.map fun r => r.ttl).min?).getD 0 ∈ records.map (fun r => r.ttl) ∧
    ∀ r ∈ records, ((records.map fun r => r.ttl).min?).getD 0 ≤ r.ttl := by
  have hl : records.map (fun r => r.ttl) ≠ [] := by
    simpa using hne
  cases hm : (records.map fun r => r.ttl).min? with
  | none => exact absurd (List.min?_eq_none_iff.mp hm) hl
  | some m =>
    have hmem : m ∈ records.map (fun r => r.ttl) :=
      List.min?_mem (fun a b => min_choice a b) hm
    have hle : ∀ b ∈ records.map (fun r => r.ttl), m ≤ b :=
      (List.le_min?_iff (fun a b c => le_min_iff) hm).mp (le_refl m)
    refine ⟨by simpa [hm] using hmem, ?_⟩
    intro r hr
    simpa [hm] using hle r.ttl (List.mem_map_of_mem _ hr)

/-- Claim C7: a successful cache refresh over a non-empty record list sets the
cache expiration to the minimum time-to-live over the returned records — it is
one of the TTLs and a lower bound of all of them — for both the Affinity and
the Rfc2782 `refresh_cache`. -/
theorem refresh_cache_min_ttl (records : List SrvRecord)
    (parse : SrvRecord → Except H Uri) (hne : records ≠ []) :
    (∀ c : Cache Uri,
      refreshCacheAffinity (Except.ok records : Except L _) parse = .ok c →
      c.valid_until ∈ records.map (fun r => r.ttl) ∧
      ∀ r ∈ records, c.valid_until ≤ r.ttl) ∧
    (∀ c : Cache ParsedRecord,
      refreshCacheRfc2782 (Except.ok records : Except L _) parse = .ok c →
      c.valid_until ∈ records.map (fun r => r.ttl) ∧
      ∀ r ∈ records, c.valid_until ≤ r.ttl) := by
  obtain ⟨hmem, hle⟩ := minTtl_spec records hne
  constructor
  · intro c hc
    rw [refreshCacheAffinity, getFreshUriCandidates] at hc
    cases hmp : records.mapM parse with
    | error e => rw [hmp] at hc; exact absurd hc (by simp)
    | ok uris =>
      rw [hmp] at hc
      simp only [Except.ok.injEq] at hc
      rw [← hc]
      exact ⟨hmem, hle⟩
  · intro c hc
    rw [refreshCacheRfc2782] at hc
    cases hmp : records.mapM fun r => (parse r).map (ParsedRecord.new r) with
    | error e => rw [hmp] at hc; exact absurd hc (by simp)
    | ok parsed =>
      rw [hmp] at hc
      simp only [Except.ok.injEq] at hc
      rw [← hc]
      exact ⟨hmem, hle⟩

/-- Witness for C7: two records with TTLs 5 and 3; both refreshed caches
expire at 3. -/
theorem refresh_cache_min_ttl_witness :
    (∀ c : Cache Uri,
      refreshCacheAffinity
        (Except.ok [⟨"h", 1, 0, 0, 5⟩, ⟨"g", 2, 0, 0, 3⟩] : Except Unit _)
        (fun r => (Except.ok r.target : Except Unit Uri)) = .ok c →
      c.valid_until ∈
        ([⟨"h", 1, 0, 0, 5⟩, ⟨"g", 2, 0, 0, 3⟩] : List SrvRecord).map
          (fun r => r.ttl) ∧
      ∀ r ∈ ([⟨"h", 1, 0, 0, 5⟩, ⟨"g", 2, 0, 0, 3⟩] : List SrvRecord),
        c.valid_until ≤ r.ttl) ∧
    (∀ c : Cache ParsedRecord,
      refreshCacheRfc2782
        (Except.ok [⟨"h", 1, 0, 0, 5⟩, ⟨"g", 2, 0, 0, 3⟩] : Except Unit _)
        (fun r => (Except.ok r.target : Except Unit Uri)) = .ok c →
      c.valid_until ∈
        ([⟨"h", 1, 0, 0, 5⟩, ⟨"g", 2, 0, 0, 3⟩] : List SrvRecord).map
          (fun r => r.ttl) ∧
      ∀ r ∈ ([⟨"h", 1, 0, 0, 5⟩, ⟨"g", 2, 0, 0, 3⟩] : List SrvRecord),
        c.valid_until ≤ r.ttl) :=
  refresh_cache_min_ttl
    ([⟨"h", 1, 0, 0, 5⟩, ⟨"g", 2, 0, 0, 3⟩] : List SrvRecord)
    (fun r => (Except.ok r.target : Except Unit Uri)) (by decide)

/-- `SrvClient::refresh_cache`: await the policy's refresh (its result passed
as `refresh`); on success store the new cache in the shared slot, on error the
`?` operator returns early, leaving the slot untouched.  The pair is (result,
slot contents afterwards). -/
def clientRefreshCache (slot : Cache X) (refresh : Except E (Cache X)) :
    Except E (Cache X) × Cache X :=
  match refresh with
  | .error e => (.error e, slot)
  | .ok nc => (.ok nc, nc)

/-- `SrvClient::get_valid_cache`: use the current slot contents if valid,
else refresh. -/
def clientGetValidCache (now : Nat) (slot : Cache X)
    (refresh : Except E (Cache X)) : Except E (Cache X) × Cache X :=
  if Cache.valid now slot then (.ok slot, slot) else clientRefreshCache slot refresh

/-- Serial execution fused with `first_success`: `stream::iter(order).then(func)`
creates each attempt's future only when the stream is polled, and
`first_success` stops polling at the first `Ok`, so the loop invokes `op` on
one candidate at a time and returns at the first success, keeping the last
error otherwise.  The second component is the list of candidates `op` was
actually invoked on, in invocation order. -/
def runSerial (op : α → Except Eo T) :
    List α → Option Eo → List α → Except NoSRVTargets (Except Eo T) × List α
  | [], none, log => (.error .noSRVTargets, log)
  | [], some e, log => (.ok (.error e), log)
  | u :: rest, _last, log =>
    match op u with
    | .ok v => (.ok (.ok v), log ++ [u])
    | .error e => runSerial op rest (some e) (log ++ [u])

/-- The `execute!` convenience on an Affinity client in Serial mode: obtain a
valid cache (refreshing through `Affinity::refresh_cache` when the slot is
invalid), order the cached URIs through the policy (`order`), then drive the
operation serially and take the first success.  Returns the overall result and
the cache slot contents afterwards. -/
def executeSerialFirstSuccess (now : Nat) (slot : Cache Uri)
    (lookup : Except L (List SrvRecord)) (parse : SrvRecord → Except H Uri)
    (order : List Uri → List Uri) (op : Uri → Except Eo T) :
    Except (SrvError L H) (Except Eo T) × Cache Uri :=
  match clientGetValidCache now slot (refreshCacheAffinity lookup parse) with
  | (.error e, slot2) => (.error e, slot2)
  | (.ok cache, slot2) =>
    match (runSerial op (order cache.items) none []).1 with
    | .error _ => (.error .noTargets, slot2)
    | .ok res => (.ok res, slot2)

/-- Claim C8: when the refresh fails — the resolver lookup errors, or some
record fails to parse — the whole `execute` call aborts with that error and
the shared cache slot is left unchanged. -/
theorem refresh_error_aborts (now : Nat) (slot : Cache Uri)
    (lookup : Except L (List SrvRecord)) (parse : SrvRecord → Except H Uri)
    (order : List Uri → List Uri) (op : Uri → Except Eo T)
    (hinvalid : Cache.valid now slot = false) :
    (∀ e, lookup = .error e →
      executeSerialFirstSuccess now slot lookup parse order op =
        (.error (.lookup e), slot)) ∧
    (∀ records h, lookup = .ok records → records.mapM parse = .error h →
      executeSerialFirstSuccess now slot lookup parse order op =
        (.error (.recordParsing h), slot)) := by
  constructor
  · intro e he
    subst he
    simp [executeSerialFirstSuccess, clientGetValidCache, clientRefreshCache,
      refreshCacheAffinity, getFreshUriCandidates, hinvalid]
  · intro records h hrec hmp
    subst hrec
    have hmp' : List.mapM.loop parse records [] = Except.error h := hmp
    simp [executeSerialFirstSuccess, clientGetValidCache, clientRefreshCache,
      refreshCacheAffinity, getFreshUriCandidates, hinvalid, hmp, hmp']

/-- Witness for C8: a lookup error and a parse failure, each on an invalid
slot; the call aborts and the slot keeps its old contents. -/
theorem refresh_error_aborts_witness :
    executeSerialFirstSuccess 7 (Cache.new ["old"] 3)
      (Except.error "down" : Except String (List SrvRecord))
      (fun r => (Except.ok r.target : Except String Uri)) id
      (fun u => (Except.ok u : Except String Uri)) =
      (.error (.lookup "down"), Cache.new ["old"] 3) ∧
    executeSerialFirstSuccess 7 (Cache.new ["old"] 3)
      (Except.ok [⟨"bad host", 1, 0, 0, 5⟩] : Except String (List SrvRecord))
      (fun _ => (Except.error "invalid uri" : Except String Uri)) id
      (fun u => (Except.ok u : Except String Uri)) =
      (.error (.recordParsing "invalid uri"), Cache.new ["old"] 3) :=
  ⟨(refresh_error_aborts 7 (Cache.new ["old"] 3)
      (Except.error "down" : Except String (List SrvRecord))
      (fun r => (Except.ok r.target : Except String Uri)) id
      (fun u => (Except.ok u : Except String Uri)) rfl).1 "down" rfl,
   (refresh_error_aborts 7 (Cache.new ["old"] 3)
      (Except.ok [⟨"bad host", 1, 0, 0, 5⟩] : Except String (List SrvRecord))
      (fun _ => (Except.error "invalid uri" : Except String Uri)) id
      (fun u => (Except.ok u : Except String Uri)) rfl).2
     [⟨"bad host", 1, 0, 0, 5⟩] "invalid uri" rfl rfl⟩

/-- Claim C9: in Serial mode with the first-success convenience, when the
operation succeeds on the first ordered candidate, the call returns that
success and the operation is invoked only on that candidate — the invocation
log is exactly `[u]` whatever the remaining candidates are. -/
theorem serial_first_success_short_circuit (op : α → Except Eo T) (u : α)
    (rest : List α) (v : T) (h : op u = .ok v) :
    runSerial op (u :: rest) none [] = (.ok (.ok v), [u]) := by
  simp [runSerial, h]

/-- Witness for C9: an operation that succeeds on every address, run on three
candidates, invokes only the first. -/
theorem serial_first_success_short_circuit_witness :
    runSerial (fun u => (Except.ok u : Except String Uri)) ["a", "b", "c"]
      none [] = (.ok (.ok "a"), ["a"]) :=
  serial_first_success_short_circuit
    (fun u => (Except.ok u : Except String Uri)) "a" ["b", "c"] "a" rfl

end SrvRs
